import Mathlib

/-!
Verification development for the algo-trading prototype orchestrator
(`main.py`, `run_algo_prototype`).

The orchestrator is embedded shallowly: a Python DataFrame of OHLCV bars
becomes an ordered `List Bar` (the orchestrator only reads the `Close`
column, the date index, and emptiness, so only those fields are carried),
the provider's symbol mapping becomes an ordered association list
(a Python dict preserves insertion order), and the external collaborators
(strategy, ML predictor, backtester, sheets, alerts) — which live in
modules that are not part of the orchestrator file — are parameters of the
embedding (`Components`), with concrete instances modelled from the spec
where a claim needs to evaluate them.

Machine reals (prices, capital) are modelled as `ℚ`: the arithmetic the
claims discuss (sums of PnL, capital bookkeeping) is exact there.
The `UnboundLocalError` a Python function raises when a local variable is
read before any assignment is modelled by threading the loop-local
`next_day_pred` as an `Option ℤ` (`none` = never assigned) and returning
an error from the per-symbol signal loop at the offending read.
-/

namespace AlgoTrading

/-- One bar of the per-symbol historical series. `main.py` touches only the
`Close` column and the (formatted) date index of a fetched DataFrame, so a
bar carries exactly those two fields. -/
structure Bar where
  date : String
  close : ℚ
deriving DecidableEq, Repr

/-- A per-symbol historical series (one DataFrame), ordered by date. -/
abbrev Series := List Bar

/-- The configuration values `main.py` reads from `config/settings.py`
(that module is not under src/; the values are opaque parameters). -/
structure Config where
  rsi_period : ℕ
  short_ma_period : ℕ
  long_ma_period : ℕ
  rsi_overbought : ℚ
  initial_capital : ℚ
deriving DecidableEq, Repr

/-- Python's `df.tail(n)`: the last `n` rows of a DataFrame, or the whole of it when
it is shorter than `n`. -/
def tailN (l : List α) (n : ℕ) : List α := l.drop (l.length - n)

/-- One row of the DataFrame returned by `strategy.generate_signals`:
the close, the date, the `Signal` column (undefined during indicator
warm-up), and whether any of the indicator columns of the row is null —
`row.isnull().any()` is `rowNull`. -/
structure ProcRow where
  date : String
  close : ℚ
  signal : Option ℤ
  indicatorNull : Bool
deriving DecidableEq, Repr

/-- The check `processed.iloc[-1].isnull().any()` for one row: true when the signal
is undefined or some indicator field of the row is null. -/
def rowNull (r : ProcRow) : Bool := r.signal.isNone || r.indicatorNull

/-- One closed round-trip recorded in a backtest trade log. The
orchestrator only concatenates trade logs and (for the claims) sums
realized PnL, so a trade carries its symbol and realized PnL. -/
structure Trade where
  symbol : String
  realized_pnl : ℚ
deriving DecidableEq, Repr

/-- The result dict `run_backtest` returns when it is not empty. -/
structure BtResult where
  initial_capital : ℚ
  final_capital : ℚ
  total_pnl : ℚ
  trade_log : List Trade
deriving DecidableEq, Repr

/-- The per-symbol entry `run_algo_prototype` stores in
`symbol_pnl_results` (main.py lines 80-84). -/
structure PnlEntry where
  initial_capital : ℚ
  final_capital : ℚ
  total_pnl : ℚ
deriving DecidableEq, Repr

/-- The state of the single `MLPredictor` instance: its
`untrained → trained` lifecycle flag and, for provenance, the feature rows
the classifier was last fitted on. -/
structure MLState where
  trained : Bool
  fittedOn : Option (List ℚ)
deriving DecidableEq, Repr

/-- The collaborators `run_algo_prototype` delegates to; their modules are
not part of `main.py`, so they are parameters of the embedding. Feature
rows are represented by the list of surviving closes (the orchestrator
never looks inside them). -/
structure Components where
  generate_signals : Series → List ProcRow
  prepare_data_for_ml : Series → List ℚ
  train_model : MLState → List ℚ → MLState × Option ℚ
  predict_next_day_movement : MLState → Series → ℤ
  run_backtest : String → Series → Option BtResult

/-- Observable events of one run, in program order: feature preparation,
training, backtest per symbol; the three sheet deliveries; and per symbol
the recomputed current signal, the next-day prediction, and a dispatched
alert. -/
inductive Ev where
  | prepEv (sym : String)
  | trainEv (sym : String)
  | backtestEv (sym : String)
  | sinkTradeLog
  | sinkWinRate
  | sinkSummary
  | signalEv (sym : String) (sig : ℤ)
  | predictEv (sym : String) (pred : ℤ)
  | alertEv (sym : String)
deriving DecidableEq, Repr

/-- The symbol an event is about, if any. -/
def evSymbol : Ev → Option String
  | .prepEv s => some s
  | .trainEv s => some s
  | .backtestEv s => some s
  | .signalEv s _ => some s
  | .predictEv s _ => some s
  | .alertEv s => some s
  | _ => none

/-- Events of the data-preparation/training loop (main.py lines 58-67). -/
def isTrainPhase : Ev → Bool
  | .prepEv _ => true
  | .trainEv _ => true
  | _ => false

/-- Events of the backtest loop (main.py lines 72-89). -/
def isBacktestPhase : Ev → Bool
  | .backtestEv _ => true
  | _ => false

/-- Events of the Google-Sheets delivery stage (main.py lines 91-106). -/
def isSinkPhase : Ev → Bool
  | .sinkTradeLog => true
  | .sinkWinRate => true
  | .sinkSummary => true
  | _ => false

/-- Events of the current-signal/prediction/alert loop
(main.py lines 110-161). -/
def isSignalPhase : Ev → Bool
  | .signalEv _ _ => true
  | .predictEv _ _ => true
  | .alertEv _ => true
  | _ => false

/-- Result of the training loop: the predictor state, the recorded
`ml_accuracies` entries, and the emitted events. -/
structure TrainOut where
  ml : MLState
  accuracies : List (String × Option ℚ)
  events : List Ev
deriving Repr

/-- The first per-symbol loop of `run_algo_prototype`
(main.py lines 58-67): for each symbol with non-empty data, prepare the
feature table from a copy of its series and, when the prepared table is
non-empty, train the (single, shared) predictor on it and record the
accuracy. -/
def trainLoop (C : Components) : List (String × Series) → MLState → TrainOut
  | [], m => ⟨m, [], []⟩
  | (sym, df) :: rest, m =>
    if df = [] then trainLoop C rest m
    else
      let ml_data := C.prepare_data_for_ml df
      if ml_data = [] then
        let o := trainLoop C rest m
        ⟨o.ml, o.accuracies, Ev.prepEv sym :: o.events⟩
      else
        let t := C.train_model m ml_data
        let o := trainLoop C rest t.1
        ⟨o.ml, (sym, t.2) :: o.accuracies, Ev.prepEv sym :: Ev.trainEv sym :: o.events⟩

/-- Result of the backtest loop: the aggregated `all_trade_logs`, the
`symbol_pnl_results` entries, and the emitted events. -/
structure BtOut where
  all_trade_logs : List Trade
  pnl : List (String × PnlEntry)
  events : List Ev
deriving Repr

/-- The second per-symbol loop of `run_algo_prototype`
(main.py lines 72-89): for each symbol with non-empty data, run the
backtester on a copy of its series; when it yields a result, store the
PnL summary entry and concatenate a non-empty trade log onto the
aggregate (in symbol order). -/
def backtestLoop (C : Components) : List (String × Series) → BtOut
  | [] => ⟨[], [], []⟩
  | (sym, df) :: rest =>
    if df = [] then backtestLoop C rest
    else
      let o := backtestLoop C rest
      match C.run_backtest sym df with
      | some r =>
        ⟨(if r.trade_log = [] then o.all_trade_logs else r.trade_log ++ o.all_trade_logs),
         (sym, ⟨r.initial_capital, r.final_capital, r.total_pnl⟩) :: o.pnl,
         Ev.backtestEv sym :: o.events⟩
      | none => ⟨o.all_trade_logs, o.pnl, Ev.backtestEv sym :: o.events⟩

/-- The Google-Sheets stage (main.py lines 91-106): trade signals and win
ratio are written only when the aggregated log is non-empty; the summary
PnL only when some symbol produced a result. -/
def sinkEvents (logs : List Trade) (pnl : List (String × PnlEntry)) : List Ev :=
  (if logs = [] then [] else [Ev.sinkTradeLog, Ev.sinkWinRate]) ++
  (if pnl = [] then [] else [Ev.sinkSummary])

/-- The window `df.tail(required_rows_for_indicators)` of main.py line 116-117: the
trailing window for the current-signal recompute, sized
`max(RSI_PERIOD, SHORT_MA_PERIOD, LONG_MA_PERIOD) + 1`. -/
def signalWindow (cfg : Config) (df : Series) : Series :=
  tailN df (max (max cfg.rsi_period cfg.short_ma_period) cfg.long_ma_period + 1)

/-- The window `df.tail(max(RSI_PERIOD, 26) + 2)` of main.py line 148: the trailing
window handed to the ML prediction (26 accounts for the MACD long
period, +2 for the next-day shift). -/
def predWindow (cfg : Config) (df : Series) : Series :=
  tailN df (max cfg.rsi_period 26 + 2)

/-- Main.py lines 127-135: the current signal, close and date for a
symbol. When the recomputed frame is empty or its last row has any null
field, fall back to signal `0` and the raw series' last close/date;
otherwise read them off the processed last row. -/
def currentSignalOf (df : Series) (processed : List ProcRow) : ℤ × ℚ × String :=
  match processed.getLast? with
  | none =>
      (0, ((df.getLast?).map Bar.close).getD 0, ((df.getLast?).map Bar.date).getD "N/A")
  | some row =>
      if rowNull row then
        (0, ((df.getLast?).map Bar.close).getD 0, ((df.getLast?).map Bar.date).getD "N/A")
      else
        (row.signal.getD 0, row.close, row.date)

/-- The error Python raises at main.py line 158 when `next_day_pred` is
read before any iteration assigned it. -/
def unboundNextDayPred : String :=
  "UnboundLocalError: local variable next_day_pred referenced before assignment"

/-- Main.py lines 146-155: the ML-prediction branch of one iteration of
the signal loop. When the prediction window is non-empty and the shared
predictor is trained, `next_day_pred` is assigned the model's output and
a prediction event is emitted; otherwise `next_day_pred` keeps its
incoming binding `ndp` (`none` if it was never assigned) and nothing is
emitted. -/
def predBranch (cfg : Config) (C : Components) (ml : MLState) (sym : String)
    (df : Series) (ndp : Option ℤ) : Option ℤ × List Ev :=
  if predWindow cfg df ≠ [] ∧ ml.trained = true then
    (some (C.predict_next_day_movement ml (predWindow cfg df)),
     [Ev.predictEv sym (C.predict_next_day_movement ml (predWindow cfg df))])
  else (ndp, [])

/-- Main.py lines 157-161: the alert condition
`current_signal != 0 or next_day_pred != -1` with Python's
short-circuiting — `next_day_pred` (here `b1`, the binding after the
prediction branch, with `b2` that branch's events) is only read when the
current signal is zero, and reading it unbound raises. Returns the
iteration's events (the recorded current signal, the prediction branch's
events, and the alert when one is dispatched), the outgoing
`next_day_pred` binding, and the raised error, if any. -/
def alertPart (sym : String) (sig : ℤ) (b1 : Option ℤ) (b2 : List Ev) :
    List Ev × Option ℤ × Option String :=
  if sig ≠ 0 then (Ev.signalEv sym sig :: b2 ++ [Ev.alertEv sym], b1, none)
  else
    match b1 with
    | none => (Ev.signalEv sym sig :: b2, none, some unboundNextDayPred)
    | some p =>
      if p ≠ -1 then (Ev.signalEv sym sig :: b2 ++ [Ev.alertEv sym], some p, none)
      else (Ev.signalEv sym sig :: b2, some p, none)

/-- One iteration of the third per-symbol loop of `run_algo_prototype`
(main.py lines 110-161) for `(sym, df)`: skip empty series, recompute the
current signal on the trailing signal window, run the prediction branch,
then evaluate the alert condition. Returns the emitted events, the value
of `next_day_pred` after the iteration, and `some error` when the
iteration raises. -/
def signalStep (cfg : Config) (C : Components) (ml : MLState) (sym : String)
    (df : Series) (ndp : Option ℤ) : List Ev × Option ℤ × Option String :=
  if df = [] then ([], ndp, none)
  else if signalWindow cfg df = [] then ([], ndp, none)
  else
    alertPart sym (currentSignalOf df (C.generate_signals (signalWindow cfg df))).1
      (predBranch cfg C ml sym df ndp).1 (predBranch cfg C ml sym df ndp).2

/-- Result of the third per-symbol loop: its events, the final value of
the loop-local `next_day_pred`, and the exception that escaped it, if
any. -/
structure SigOut where
  events : List Ev
  ndp : Option ℤ
  err : Option String
deriving Repr

/-- The third per-symbol loop of `run_algo_prototype`
(main.py lines 110-161). An exception in one iteration aborts the loop:
the remaining symbols are not processed. -/
def signalLoop (cfg : Config) (C : Components) (ml : MLState) :
    List (String × Series) → Option ℤ → SigOut
  | [], ndp => ⟨[], ndp, none⟩
  | (sym, df) :: rest, ndp =>
    match signalStep cfg C ml sym df ndp with
    | (evs, ndp2, some e) => ⟨evs, ndp2, some e⟩
    | (evs, ndp2, none) =>
      ⟨evs ++ (signalLoop cfg C ml rest ndp2).events,
       (signalLoop cfg C ml rest ndp2).ndp,
       (signalLoop cfg C ml rest ndp2).err⟩

/-- The observable outcome of one `run_algo_prototype` invocation. -/
structure RunResult where
  aborted : Bool
  ml : MLState
  accuracies : List (String × Option ℚ)
  all_trade_logs : List Trade
  pnl : List (String × PnlEntry)
  events : List Ev
  err : Option String
deriving Repr

/-- The orchestrator `run_algo_prototype` (main.py lines 31-163): fetch is external, so the
provider's mapping `historical_data` is the input. If the mapping is
falsy (empty dict) the run returns at once (line 52-54). Otherwise the
training loop, the backtest loop, the sheet deliveries and the
current-signal loop run in that order, each iterating over all symbols. -/
def run_algo_prototype (cfg : Config) (C : Components)
    (historical_data : List (String × Series)) : RunResult :=
  if historical_data = [] then ⟨true, ⟨false, none⟩, [], [], [], [], none⟩
  else
    let t := trainLoop C historical_data ⟨false, none⟩
    let b := backtestLoop C historical_data
    let s := signalLoop cfg C t.ml historical_data none
    ⟨false, t.ml, t.accuracies, b.all_trade_logs, b.pnl,
     t.events ++ b.events ++ sinkEvents b.all_trade_logs b.pnl ++ s.events,
     s.err⟩

/-! ## Spec-modelled collaborators

The strategy, ML-predictor and backtester modules are imported by
`main.py` but are not under src/. Claims that need to evaluate them use
the following models, built from the spec's words. -/

namespace SpecModel

/-- Modelled from the spec: the simple moving average of period `p` at row
`i` of a close series, undefined (`none`) inside the warm-up window
(spec 3: indicators are undefined for the first `period-1` bars). -/
def sma (p : ℕ) (closes : List ℚ) (i : ℕ) : Option ℚ :=
  if p ≠ 0 ∧ p ≤ i + 1 then some (((closes.drop (i + 1 - p)).take p).sum / p)
  else none

/-- Modelled from the spec: the relative strength index of period `p` at
row `i` (glossary: a bounded momentum oscillator over a configurable
lookback), computed from the simple averages of the last `p` gains and
losses, with the `RSI = 100` convention when there is no loss; undefined
until `p` price changes exist. -/
def rsiAt (p : ℕ) (closes : List ℚ) (i : ℕ) : Option ℚ :=
  if p ≠ 0 ∧ p ≤ i then
    let diffs := (List.range p).map
      (fun k => closes.getD (i - k) 0 - closes.getD (i - k - 1) 0)
    let gains := (diffs.map (fun d => max d 0)).sum / p
    let losses := (diffs.map (fun d => max (-d) 0)).sum / p
    if losses = 0 then some 100 else some (100 - 100 / (1 + gains / losses))
  else none

/-- Modelled from the spec: the per-row signal of `generate_signals`
(spec 4.1): BUY when the short MA crosses from at-or-below to above the
long MA and RSI is below the overbought threshold; SELL on the opposite
crossover or when RSI is above the threshold (the spec leaves the exact
SELL rule open; the position qualifier of the RSI clause is not
representable in a pure per-row rule and is dropped); HOLD otherwise;
undefined (not HOLD) while any required indicator or its previous-row
value is inside the warm-up window. -/
def signalAt (cfg : Config) (closes : List ℚ) (i : ℕ) : Option ℤ :=
  if i = 0 then none
  else
    match rsiAt cfg.rsi_period closes i, sma cfg.short_ma_period closes i,
          sma cfg.long_ma_period closes i, sma cfg.short_ma_period closes (i - 1),
          sma cfg.long_ma_period closes (i - 1) with
    | some r, some s, some l, some sp, some lp =>
        if sp ≤ lp ∧ l < s ∧ r < cfg.rsi_overbought then some 1
        else if (lp ≤ sp ∧ s < l) ∨ cfg.rsi_overbought < r then some (-1)
        else some 0
    | _, _, _, _, _ => none

/-- Modelled from the spec: `strategy.generate_signals` (spec 4.1) —
output preserves input ordering and length; each row carries the bar's
close and date, the signal of `signalAt`, and whether one of the row's
own indicator columns (RSI, short MA, long MA) is still null. -/
def generate_signals (cfg : Config) (df : Series) : List ProcRow :=
  let closes := df.map Bar.close
  (List.range df.length).map (fun i =>
    { date := (df.getD i ⟨"N/A", 0⟩).date
      close := closes.getD i 0
      signal := signalAt cfg closes i
      indicatorNull :=
        (rsiAt cfg.rsi_period closes i).isNone ||
        (sma cfg.short_ma_period closes i).isNone ||
        (sma cfg.long_ma_period closes i).isNone })

/-- The minimum viable training-set size of `prepare_data_for_ml`
(spec 4.3 requires the implementation to define and document it, and
suggests 30 rows; 30 is adopted here). -/
def minTrainRows : ℕ := 30

/-- Modelled from the spec: `prepare_data_for_ml` (spec 4.3) — rows whose
features are defined start after the warm-up of the widest feature
indicator, `max(RSI period, 26)` bars (26 is the MACD long period), and
the final row is dropped because it has no next-bar label; fewer than
`minTrainRows` survivors yield the empty table. A surviving feature row
is represented by its bar's close (the orchestrator treats rows as
opaque, so provenance suffices). -/
def prepare_data_for_ml (cfg : Config) (df : Series) : List ℚ :=
  let survivors := ((df.map Bar.close).drop (max cfg.rsi_period 26)).dropLast
  if survivors.length < minTrainRows then [] else survivors

/-- Modelled from the spec: `train_model` (spec 4.3) — on a non-empty
feature table the predictor becomes trained, remembers what it was
fitted on, and reports a validation accuracy (its numeric value is not
observable to any claim and is fixed at 1/2); on an empty table it
returns the untrained sentinel and accuracy `None`. -/
def train_model (st : MLState) (rows : List ℚ) : MLState × Option ℚ :=
  if rows = [] then (st, none)
  else (⟨true, some rows⟩, some (1 / 2))

/-- Modelled from the spec: `predict_next_day_movement` (spec 4.3) —
sentinel `-1` when the model is untrained or the trailing window yields
no usable feature row (warm-up of `max(RSI period, 26)` bars); otherwise
the fitted binary classifier's class in `{0, 1}`. The classifier itself
is opaque in the spec; it is modelled as comparing the most recent usable
close against the mean of the closes the model was fitted on. -/
def predict_next_day_movement (cfg : Config) (st : MLState) (window : Series) : ℤ :=
  if st.trained = true then
    match ((window.map Bar.close).drop (max cfg.rsi_period 26)).getLast?, st.fittedOn with
    | some c, some rows => if rows.sum / rows.length ≤ c then 1 else 0
    | _, _ => -1
  else -1

/-- The simulated account of the Backtest Simulation Engine (spec 4.2):
available capital, the open position as `(entry_price, quantity)` when
not flat, and the closed-trade log. -/
structure BtState where
  capital : ℚ
  position : Option (ℚ × ℚ)
  trades : List Trade
deriving DecidableEq, Repr

/-- Modelled from the spec: one bar of the position state machine
(spec 4.2). FLAT + BUY opens a position sized `capital / close` with the
full capital; LONG + SELL closes it at the bar's close and records the
realized PnL; undefined and HOLD signals (and BUY while long, SELL while
flat) cause no transition. -/
def btStep (sym : String) (st : BtState) (row : ProcRow) : BtState :=
  match st.position with
  | none =>
      if row.signal = some 1 then
        { capital := 0, position := some (row.close, st.capital / row.close),
          trades := st.trades }
      else st
  | some pq =>
      if row.signal = some (-1) then
        { capital := st.capital + pq.2 * row.close, position := none,
          trades := st.trades ++ [⟨sym, pq.2 * (row.close - pq.1)⟩] }
      else st

/-- The whole simulation: fold the state machine over the signal rows
starting from the initial capital, flat, with an empty trade log. -/
def btFold (sym : String) (rows : List ProcRow) (c0 : ℚ) : BtState :=
  rows.foldl (btStep sym) ⟨c0, none, []⟩

/-- Sum of the realized PnL of a trade log. -/
def realizedSum (ts : List Trade) : ℚ := (ts.map Trade.realized_pnl).sum

/-- Mark-to-market value of an open position at close `c`. -/
def posValue : Option (ℚ × ℚ) → ℚ → ℚ
  | some pq, c => pq.2 * c
  | none, _ => 0

/-- Unrealized PnL of an open position at close `c`. -/
def posGain : Option (ℚ × ℚ) → ℚ → ℚ
  | some pq, c => pq.2 * (c - pq.1)
  | none, _ => 0

/-- Cost basis of an open position. -/
def posCost : Option (ℚ × ℚ) → ℚ
  | some pq => pq.2 * pq.1
  | none => 0

/-- The final simulated account state of a backtest over `df`'s own
signals starting from the configured initial capital. -/
def btFinal (cfg : Config) (sym : String) (df : Series) : BtState :=
  btFold sym (generate_signals cfg df) cfg.initial_capital

/-- The close of the final bar, against which an open position is marked
to market. -/
def btLastClose (cfg : Config) (df : Series) : ℚ :=
  (((generate_signals cfg df).getLast?).map ProcRow.close).getD 0

/-- Modelled from the spec: `backtester.run_backtest` (spec 4.2) — the
backtester computes the signals itself (main.py hands it the raw series
and exposes the strategy as `backtester_instance.strategy`), replays the
position state machine, returns the empty result on an empty series or
when no bar carries a defined signal, and otherwise reports
`final_capital` as capital plus the open position marked to the final
close and `total_pnl` as realized plus unrealized PnL. An open position
is not recorded as a closed trade. -/
def run_backtest (cfg : Config) (sym : String) (df : Series) : Option BtResult :=
  if df = [] ∨ (generate_signals cfg df).all (fun r => r.signal = none) then none
  else
    some { initial_capital := cfg.initial_capital
           final_capital := (btFinal cfg sym df).capital +
             posValue (btFinal cfg sym df).position (btLastClose cfg df)
           total_pnl := realizedSum (btFinal cfg sym df).trades +
             posGain (btFinal cfg sym df).position (btLastClose cfg df)
           trade_log := (btFinal cfg sym df).trades }

end SpecModel

/-- The spec-modelled collaborators assembled into the orchestrator's
dependency record. -/
def specComponents (cfg : Config) : Components where
  generate_signals := SpecModel.generate_signals cfg
  prepare_data_for_ml := SpecModel.prepare_data_for_ml cfg
  train_model := SpecModel.train_model
  predict_next_day_movement := SpecModel.predict_next_day_movement cfg
  run_backtest := SpecModel.run_backtest cfg

/-! ## Concrete fixtures for counterexamples and witnesses -/

/-- A series with distinct ascending dates from a list of closes. -/
def mkBars (closes : List ℚ) : Series :=
  ((List.range closes.length).zip closes).map (fun p => ⟨toString p.1, p.2⟩)

/-- A small configuration: RSI period 2, short MA 2, long MA 3,
overbought threshold 75, initial capital 1000. -/
def cfg1 : Config := ⟨2, 2, 3, 75, 1000⟩

/-- Five bars whose last bar has a clean upward short-over-long crossover
with RSI below the threshold: its current signal is BUY. -/
def dfBuy : Series := mkBars [6, 8, 7, 5, 10]

/-- The same shape scaled by two — a different series whose last signal is
also BUY. -/
def dfBuy2 : Series := mkBars [12, 16, 14, 10, 20]

/-- A two-bar series: shorter than every indicator window, so its
recomputed latest row is null and shorter than the training minimum, so
the model cannot be trained from it. -/
def dfShort : Series := mkBars [1, 2]

/-- Fifty-seven flat bars at close 1: long enough that 30 feature rows
survive preparation. -/
def dfFlat1 : Series := mkBars (List.replicate 57 1)

/-- Fifty-seven flat bars at close 100: preparable, with a feature table
different from `dfFlat1`'s. -/
def dfFlat100 : Series := mkBars (List.replicate 57 100)

/-- The last entry of the provider mapping whose series is non-empty and
whose prepared feature table is non-empty: the entry whose features the
shared predictor ends the training loop fitted on. -/
def lastTrainable (C : Components) (hd : List (String × Series)) :
    Option (String × Series) :=
  (hd.filter (fun p => !p.2.isEmpty && !(C.prepare_data_for_ml p.2).isEmpty)).getLast?

/-! ## Store-based embedding for the frame property

Python DataFrames are mutable objects held by reference in the
`historical_data` dict. To state that the orchestrator never mutates the
fetched series, the dict is modelled as a map from symbols to references
into a store of series, `df.copy()` as allocation of a fresh reference
holding the same value, and each collaborator as a function that may
mutate the object passed to it in place (it returns the object's new
value along with its result). `run_algo_prototype` only ever hands
collaborators freshly allocated copies (main.py lines 60, 78, 117, 148),
which is what the frame theorem verifies. -/

/-- The object store: series indexed by reference. -/
abbrev Store := List Series

/-- Dereference (a dangling reference yields the empty series). -/
def getRef (st : Store) (r : ℕ) : Series := st.getD r []

/-- Python's `df.copy()`: allocate a fresh reference holding value `v`. -/
def allocVal (st : Store) (v : Series) : Store × ℕ := (st ++ [v], st.length)

/-- Collaborators that receive a DataFrame object and may mutate it in
place: each returns the passed object's value after the call together
with its result. -/
structure MutComponents where
  generate_signals : Series → Series × List ProcRow
  prepare_data_for_ml : Series → Series × List ℚ
  train_model : MLState → List ℚ → MLState × Option ℚ
  predict_next_day_movement : MLState → Series → Series × ℤ
  run_backtest : String → Series → Series × Option BtResult

/-- Call a possibly mutating collaborator on the object behind `r`,
writing the object's new value back to the store. -/
def callOn {α : Type} (f : Series → Series × α) (st : Store) (r : ℕ) :
    Store × α :=
  (st.set r (f (getRef st r)).1, (f (getRef st r)).2)

/-- Main.py line 60: `prepare_data_for_ml(df.copy())` — the store after
allocating the copy and calling the (possibly mutating) preparation on
it, paired with the returned feature rows. -/
def prepStore (M : MutComponents) (st : Store) (r : ℕ) : Store × List ℚ :=
  callOn M.prepare_data_for_ml (allocVal st (getRef st r)).1
    (allocVal st (getRef st r)).2

/-- The training loop (main.py lines 58-67) over store references. -/
def trainLoopS (M : MutComponents) : List (String × ℕ) → Store → MLState →
    Store × MLState
  | [], st, m => (st, m)
  | (_, r) :: rest, st, m =>
    if getRef st r = [] then trainLoopS M rest st m
    else if (prepStore M st r).2 = [] then
      trainLoopS M rest (prepStore M st r).1 m
    else
      trainLoopS M rest (prepStore M st r).1
        (M.train_model m (prepStore M st r).2).1

/-- Main.py line 78: `run_backtest(symbol, df.copy())` — the store after
the call on the fresh copy. -/
def btStore (M : MutComponents) (sym : String) (st : Store) (r : ℕ) : Store :=
  (callOn (M.run_backtest sym) (allocVal st (getRef st r)).1
    (allocVal st (getRef st r)).2).1

/-- The backtest loop (main.py lines 72-89) over store references. -/
def backtestLoopS (M : MutComponents) : List (String × ℕ) → Store → Store
  | [], st => st
  | (sym, r) :: rest, st =>
    if getRef st r = [] then backtestLoopS M rest st
    else backtestLoopS M rest (btStore M sym st r)

/-- Main.py line 117/124: the store after allocating
`df.tail(required).copy()` and running `generate_signals` on it, paired
with the returned rows. -/
def genStore (cfg : Config) (M : MutComponents) (st : Store) (r : ℕ) :
    Store × List ProcRow :=
  callOn M.generate_signals (allocVal st (signalWindow cfg (getRef st r))).1
    (allocVal st (signalWindow cfg (getRef st r))).2

/-- Main.py line 148: the store after allocating
`df.tail(max(RSI, 26) + 2).copy()` (this copy is made whether or not the
prediction branch runs). -/
def mlwStore (cfg : Config) (st : Store) (r : ℕ) : Store :=
  (allocVal st (predWindow cfg (getRef st r))).1

/-- Main.py lines 149-150: the store after the prediction call on the
copied window, paired with the predicted value. -/
def predStore (cfg : Config) (M : MutComponents) (ml : MLState) (st : Store)
    (r : ℕ) : Store × ℤ :=
  callOn (M.predict_next_day_movement ml)
    (allocVal st (predWindow cfg (getRef st r))).1
    (allocVal st (predWindow cfg (getRef st r))).2

/-- One iteration of the current-signal loop (main.py lines 110-161) over
store references: the resulting store, the outgoing `next_day_pred`
binding, and whether the loop continues (`false` when the iteration
raises `UnboundLocalError`). -/
def signalStepS (cfg : Config) (M : MutComponents) (ml : MLState) (r : ℕ)
    (st : Store) (ndp : Option ℤ) : Store × Option ℤ × Bool :=
  if getRef st r = [] then (st, ndp, true)
  else if signalWindow cfg (getRef st r) = [] then (st, ndp, true)
  else if predWindow cfg (getRef (genStore cfg M st r).1 r) ≠ [] ∧
      ml.trained = true then
    ((predStore cfg M ml (genStore cfg M st r).1 r).1,
     some (predStore cfg M ml (genStore cfg M st r).1 r).2, true)
  else if (currentSignalOf (getRef (genStore cfg M st r).1 r)
      (genStore cfg M st r).2).1 ≠ 0 then
    (mlwStore cfg (genStore cfg M st r).1 r, ndp, true)
  else
    match ndp with
    | none => (mlwStore cfg (genStore cfg M st r).1 r, ndp, false)
    | some _ => (mlwStore cfg (genStore cfg M st r).1 r, ndp, true)

/-- The current-signal loop (main.py lines 110-161) over store
references; a raising iteration aborts the loop with the store as it
stands. -/
def signalLoopS (cfg : Config) (M : MutComponents) (ml : MLState) :
    List (String × ℕ) → Store → Option ℤ → Store
  | [], st, _ => st
  | (_, r) :: rest, st, ndp =>
    if (signalStepS cfg M ml r st ndp).2.2 then
      signalLoopS cfg M ml rest (signalStepS cfg M ml r st ndp).1
        (signalStepS cfg M ml r st ndp).2.1
    else (signalStepS cfg M ml r st ndp).1

/-- The orchestrator `run_algo_prototype` over store references: abort on an empty mapping,
otherwise run the three per-symbol loops in order (the sheet deliveries
do not touch the store). Returns the final store. -/
def runS (cfg : Config) (M : MutComponents) (hd : List (String × ℕ))
    (st : Store) : Store :=
  if hd = [] then st
  else
    signalLoopS cfg M (trainLoopS M hd st ⟨false, none⟩).2 hd
      (backtestLoopS M hd (trainLoopS M hd st ⟨false, none⟩).1) none

/-- Whether an event belongs to symbol `s`'s current-signal processing
(signal recomputed, prediction made, or alert dispatched for `s`). -/
def evFor (s : String) : Ev → Bool
  | .signalEv s2 _ => s == s2
  | .predictEv s2 _ => s == s2
  | .alertEv s2 => s == s2
  | _ => false

set_option maxRecDepth 1000000

/-! ## Helper lemmas -/

theorem trainLoop_events_phase (C : Components) (l : List (String × Series))
    (m : MLState) : ∀ e ∈ (trainLoop C l m).events, isTrainPhase e = true := by
  induction l generalizing m with
  | nil => intro e he; simp [trainLoop] at he
  | cons p rest ih =>
    intro e he
    obtain ⟨sym, df⟩ := p
    rw [trainLoop] at he
    by_cases hdf : df = []
    · rw [if_pos hdf] at he
      exact ih m e he
    · rw [if_neg hdf] at he
      by_cases hml : C.prepare_data_for_ml df = []
      · simp only [if_pos hml] at he
        rcases List.mem_cons.mp he with rfl | he
        · rfl
        · exact ih m e he
      · simp only [if_neg hml] at he
        rcases List.mem_cons.mp he with rfl | he
        · rfl
        rcases List.mem_cons.mp he with rfl | he
        · rfl
        · exact ih _ e he

theorem backtestLoop_events_phase (C : Components) (l : List (String × Series)) :
    ∀ e ∈ (backtestLoop C l).events, isBacktestPhase e = true := by
  induction l with
  | nil => intro e he; simp [backtestLoop] at he
  | cons p rest ih =>
    intro e he
    obtain ⟨sym, df⟩ := p
    by_cases hdf : df = [] <;>
      simp only [backtestLoop, hdf, if_true, if_false] at he
    · exact ih e he
    · rcases hr : C.run_backtest sym df with _ | r <;> simp only [hr] at he <;>
        rcases List.mem_cons.mp he with rfl | he
      · rfl
      · exact ih e he
      · rfl
      · exact ih e he

theorem backtestLoop_pnl_mem (C : Components) (l : List (String × Series))
    (sym : String) (e : PnlEntry) (hmem : (sym, e) ∈ (backtestLoop C l).pnl) :
    ∃ df r, (sym, df) ∈ l ∧ df ≠ [] ∧ C.run_backtest sym df = some r ∧
      e = ⟨r.initial_capital, r.final_capital, r.total_pnl⟩ := by
  induction l with
  | nil => simp [backtestLoop] at hmem
  | cons p rest ih =>
    obtain ⟨s2, df2⟩ := p
    rw [backtestLoop] at hmem
    by_cases hdf : df2 = []
    · rw [if_pos hdf] at hmem
      obtain ⟨df, r, h1, h2, h3, h4⟩ := ih hmem
      exact ⟨df, r, List.mem_cons_of_mem _ h1, h2, h3, h4⟩
    · rw [if_neg hdf] at hmem
      rcases hr : C.run_backtest s2 df2 with _ | r <;> rw [hr] at hmem
      · obtain ⟨df, r2, h1, h2, h3, h4⟩ := ih hmem
        exact ⟨df, r2, List.mem_cons_of_mem _ h1, h2, h3, h4⟩
      · rcases List.mem_cons.mp hmem with heq | hmem2
        · have h5 : sym = s2 := congrArg Prod.fst heq
          have h6 : e = ⟨r.initial_capital, r.final_capital, r.total_pnl⟩ :=
            congrArg Prod.snd heq
          subst h5
          exact ⟨df2, r, List.mem_cons_self _ _, hdf, hr, h6⟩
        · obtain ⟨df, r2, h1, h2, h3, h4⟩ := ih hmem2
          exact ⟨df, r2, List.mem_cons_of_mem _ h1, h2, h3, h4⟩

theorem sinkEvents_phase (logs : List Trade) (pnl : List (String × PnlEntry)) :
    ∀ e ∈ sinkEvents logs pnl, isSinkPhase e = true := by
  intro e he
  unfold sinkEvents at he
  rcases List.mem_append.mp he with h | h <;> split at h <;> simp at h <;>
    first
    | (rcases h with rfl | rfl; rfl; rfl)
    | (subst h; rfl)

theorem predBranch_events (cfg : Config) (C : Components) (ml : MLState)
    (sym : String) (df : Series) (ndp : Option ℤ) :
    ∀ e ∈ (predBranch cfg C ml sym df ndp).2, ∃ p, e = Ev.predictEv sym p := by
  intro e he
  unfold predBranch at he
  split at he <;> simp only [List.mem_singleton, List.not_mem_nil] at he
  exact ⟨_, he⟩

theorem alertPart_none (sym : String) (sig : ℤ) (b2 : List Ev) :
    alertPart sym sig none b2 =
      if sig ≠ 0 then (Ev.signalEv sym sig :: b2 ++ [Ev.alertEv sym], none, none)
      else (Ev.signalEv sym sig :: b2, none, some unboundNextDayPred) := by
  unfold alertPart
  by_cases h : sig ≠ 0
  · rw [if_pos h]
  · rw [if_neg h]

theorem alertPart_some (sym : String) (sig : ℤ) (p : ℤ) (b2 : List Ev) :
    alertPart sym sig (some p) b2 =
      if sig ≠ 0 ∨ p ≠ -1 then
        (Ev.signalEv sym sig :: b2 ++ [Ev.alertEv sym], some p, none)
      else (Ev.signalEv sym sig :: b2, some p, none) := by
  unfold alertPart
  by_cases hsig : sig ≠ 0
  · rw [if_pos hsig, if_pos (Or.inl hsig)]
  · rw [if_neg hsig]
    show (if p ≠ -1 then (Ev.signalEv sym sig :: b2 ++ [Ev.alertEv sym], some p, none)
      else (Ev.signalEv sym sig :: b2, some p, none)) = _
    by_cases hp : p ≠ -1
    · rw [if_pos hp, if_pos (Or.inr hp)]
    · rw [if_neg hp, if_neg (fun h => h.elim hsig hp)]

theorem alertPart_events (sym : String) (sig : ℤ) (b1 : Option ℤ) (b2 : List Ev) :
    ∀ e ∈ (alertPart sym sig b1 b2).1,
      e = Ev.signalEv sym sig ∨ e ∈ b2 ∨ e = Ev.alertEv sym := by
  intro e he
  unfold alertPart at he
  split at he
  · rcases List.mem_cons.mp he with rfl | he
    · exact Or.inl rfl
    rcases List.mem_append.mp he with he | he
    · exact Or.inr (Or.inl he)
    · exact Or.inr (Or.inr (List.mem_singleton.mp he))
  · split at he
    · rcases List.mem_cons.mp he with rfl | he
      · exact Or.inl rfl
      · exact Or.inr (Or.inl he)
    · split at he
      · rcases List.mem_cons.mp he with rfl | he
        · exact Or.inl rfl
        rcases List.mem_append.mp he with he | he
        · exact Or.inr (Or.inl he)
        · exact Or.inr (Or.inr (List.mem_singleton.mp he))
      · rcases List.mem_cons.mp he with rfl | he
        · exact Or.inl rfl
        · exact Or.inr (Or.inl he)

theorem signalStep_events (cfg : Config) (C : Components) (ml : MLState)
    (sym : String) (df : Series) (ndp : Option ℤ) :
    ∀ e ∈ (signalStep cfg C ml sym df ndp).1,
      isSignalPhase e = true ∧ evSymbol e = some sym := by
  intro e he
  unfold signalStep at he
  split at he
  · simp at he
  · split at he
    · simp at he
    · rcases alertPart_events _ _ _ _ e he with rfl | he | rfl
      · exact ⟨rfl, rfl⟩
      · obtain ⟨p, rfl⟩ := predBranch_events cfg C ml sym df ndp e he
        exact ⟨rfl, rfl⟩
      · exact ⟨rfl, rfl⟩

theorem signalLoop_events_phase (cfg : Config) (C : Components) (ml : MLState)
    (l : List (String × Series)) (ndp : Option ℤ) :
    ∀ e ∈ (signalLoop cfg C ml l ndp).events, isSignalPhase e = true := by
  induction l generalizing ndp with
  | nil => intro e he; simp [signalLoop] at he
  | cons p rest ih =>
    intro e he
    obtain ⟨sym, df⟩ := p
    rw [signalLoop] at he
    rcases hs : signalStep cfg C ml sym df ndp with ⟨evs, ndp2, err⟩
    rw [hs] at he
    cases err with
    | some er =>
      have := signalStep_events cfg C ml sym df ndp e
      rw [hs] at this
      exact (this he).1
    | none =>
      rcases List.mem_append.mp he with he | he
      · have := signalStep_events cfg C ml sym df ndp e
        rw [hs] at this
        exact (this he).1
      · exact ih _ e he

theorem not_mem_of_phase {evs : List Ev} {P : Ev → Bool}
    (hall : ∀ e ∈ evs, P e = true) {x : Ev} (hx : P x = false) : x ∉ evs := by
  intro h
  rw [hall x h] at hx
  exact Bool.noConfusion hx

theorem assoc_key_unique {β : Type} (hd : List (String × β))
    (hnd : (hd.map Prod.fst).Nodup) (s : String) (a b : β)
    (ha : (s, a) ∈ hd) (hb : (s, b) ∈ hd) : a = b := by
  induction hd with
  | nil => simp at ha
  | cons p rest ih =>
    obtain ⟨ps, pb⟩ := p
    rw [List.map_cons, List.nodup_cons] at hnd
    rcases List.mem_cons.mp ha with heqa | ha2
    · rcases List.mem_cons.mp hb with heqb | hb2
      · have h1 : a = pb := congrArg Prod.snd heqa
        have h2 : b = pb := congrArg Prod.snd heqb
        rw [h1, h2]
      · obtain rfl : s = ps := congrArg Prod.fst heqa
        exact absurd (List.mem_map.mpr ⟨(s, b), hb2, rfl⟩) hnd.1
    · rcases List.mem_cons.mp hb with heqb | hb2
      · obtain rfl : s = ps := congrArg Prod.fst heqb
        exact absurd (List.mem_map.mpr ⟨(s, a), ha2, rfl⟩) hnd.1
      · exact ih hnd.2 ha2 hb2

theorem trainLoop_mem_nonempty (C : Components) (l : List (String × Series))
    (m : MLState) : ∀ e ∈ (trainLoop C l m).events,
      ∃ s df, evSymbol e = some s ∧ (s, df) ∈ l ∧ df ≠ [] := by
  induction l generalizing m with
  | nil => intro e he; simp [trainLoop] at he
  | cons p rest ih =>
    intro e he
    obtain ⟨sym, df⟩ := p
    rw [trainLoop] at he
    by_cases hdf : df = []
    · rw [if_pos hdf] at he
      obtain ⟨s, df2, h1, h2, h3⟩ := ih m e he
      exact ⟨s, df2, h1, List.mem_cons_of_mem _ h2, h3⟩
    · rw [if_neg hdf] at he
      by_cases hml : C.prepare_data_for_ml df = []
      · simp only [if_pos hml] at he
        rcases List.mem_cons.mp he with rfl | he
        · exact ⟨sym, df, rfl, List.mem_cons_self _ _, hdf⟩
        · obtain ⟨s, df2, h1, h2, h3⟩ := ih m e he
          exact ⟨s, df2, h1, List.mem_cons_of_mem _ h2, h3⟩
      · simp only [if_neg hml] at he
        rcases List.mem_cons.mp he with rfl | he
        · exact ⟨sym, df, rfl, List.mem_cons_self _ _, hdf⟩
        rcases List.mem_cons.mp he with rfl | he
        · exact ⟨sym, df, rfl, List.mem_cons_self _ _, hdf⟩
        · obtain ⟨s, df2, h1, h2, h3⟩ := ih _ e he
          exact ⟨s, df2, h1, List.mem_cons_of_mem _ h2, h3⟩

theorem backtestLoop_mem_nonempty (C : Components) (l : List (String × Series)) :
    ∀ e ∈ (backtestLoop C l).events,
      ∃ s df, evSymbol e = some s ∧ (s, df) ∈ l ∧ df ≠ [] := by
  induction l with
  | nil => intro e he; simp [backtestLoop] at he
  | cons p rest ih =>
    intro e he
    obtain ⟨sym, df⟩ := p
    rw [backtestLoop] at he
    by_cases hdf : df = []
    · rw [if_pos hdf] at he
      obtain ⟨s, df2, h1, h2, h3⟩ := ih e he
      exact ⟨s, df2, h1, List.mem_cons_of_mem _ h2, h3⟩
    · rw [if_neg hdf] at he
      rcases hr : C.run_backtest sym df with _ | r <;> rw [hr] at he <;>
        rcases List.mem_cons.mp he with rfl | he
      · exact ⟨sym, df, rfl, List.mem_cons_self _ _, hdf⟩
      · obtain ⟨s, df2, h1, h2, h3⟩ := ih e he
        exact ⟨s, df2, h1, List.mem_cons_of_mem _ h2, h3⟩
      · exact ⟨sym, df, rfl, List.mem_cons_self _ _, hdf⟩
      · obtain ⟨s, df2, h1, h2, h3⟩ := ih e he
        exact ⟨s, df2, h1, List.mem_cons_of_mem _ h2, h3⟩

theorem backtestLoop_ev_of_mem (C : Components) (l : List (String × Series))
    (sym : String) (df : Series) (hmem : (sym, df) ∈ l) (hne : df ≠ []) :
    Ev.backtestEv sym ∈ (backtestLoop C l).events := by
  induction l with
  | nil => simp at hmem
  | cons p rest ih =>
    obtain ⟨s2, df2⟩ := p
    rw [backtestLoop]
    rcases List.mem_cons.mp hmem with heq | hmem2
    · injection heq with e1 e2
      subst e1
      subst e2
      rw [if_neg hne]
      rcases hr : C.run_backtest sym df with _ | r <;> simp only [hr] <;>
        exact List.mem_cons_self _ _
    · by_cases hdf : df2 = []
      · rw [if_pos hdf]; exact ih hmem2
      · rw [if_neg hdf]
        rcases hr : C.run_backtest s2 df2 with _ | r <;> simp only [hr] <;>
          exact List.mem_cons_of_mem _ (ih hmem2)

theorem run_events_decomp (cfg : Config) (C : Components)
    (hd : List (String × Series)) (h : hd ≠ []) :
    (run_algo_prototype cfg C hd).events =
      (trainLoop C hd ⟨false, none⟩).events ++ (backtestLoop C hd).events ++
      sinkEvents (backtestLoop C hd).all_trade_logs (backtestLoop C hd).pnl ++
      (signalLoop cfg C (trainLoop C hd ⟨false, none⟩).ml hd none).events := by
  simp [run_algo_prototype, h]

/-! ## Claim theorems -/

/-- C5: for every symbol with non-empty data, the current-signal recompute
window is exactly the last `max(RSI period, short MA period, long MA
period) + 1` trailing bars of its series and the prediction window is
exactly the last `max(RSI period, 26) + 2` trailing bars, each taken as
the whole series when it is shorter than the window. -/
theorem c5_window_sizes (cfg : Config) (df : Series) (_h : df ≠ []) :
    List.IsSuffix (signalWindow cfg df) df ∧
    (signalWindow cfg df).length =
      min df.length (max (max cfg.rsi_period cfg.short_ma_period) cfg.long_ma_period + 1) ∧
    List.IsSuffix (predWindow cfg df) df ∧
    (predWindow cfg df).length = min df.length (max cfg.rsi_period 26 + 2) := by
  refine ⟨List.drop_suffix _ _, ?_, List.drop_suffix _ _, ?_⟩ <;>
    simp only [signalWindow, predWindow, tailN, List.length_drop] <;> omega

/-- C5 witness: the window properties at a concrete configuration and
series. -/
theorem c5_window_sizes_w :
    List.IsSuffix (signalWindow cfg1 dfBuy) dfBuy ∧
    (signalWindow cfg1 dfBuy).length =
      min dfBuy.length (max (max cfg1.rsi_period cfg1.short_ma_period) cfg1.long_ma_period + 1) ∧
    List.IsSuffix (predWindow cfg1 dfBuy) dfBuy ∧
    (predWindow cfg1 dfBuy).length = min dfBuy.length (max cfg1.rsi_period 26 + 2) :=
  c5_window_sizes cfg1 dfBuy (by with_unfolding_all decide)

/-- C3 counterexample: with symbols A (5 bars, untrainable) and B (57
bars, trainable), B's training stage runs before A's backtest stage, so
not all four stages of A complete before a stage of B begins. -/
theorem c3_interleaved_stages_cex :
    Ev.trainEv "B" ∈
      (run_algo_prototype cfg1 (specComponents cfg1) [("A", dfBuy), ("B", dfFlat100)]).events ∧
    Ev.backtestEv "A" ∈
      (run_algo_prototype cfg1 (specComponents cfg1) [("A", dfBuy), ("B", dfFlat100)]).events ∧
    (run_algo_prototype cfg1 (specComponents cfg1) [("A", dfBuy), ("B", dfFlat100)]).events.indexOf
        (Ev.trainEv "B") <
      (run_algo_prototype cfg1 (specComponents cfg1) [("A", dfBuy), ("B", dfFlat100)]).events.indexOf
        (Ev.backtestEv "A") := by
  with_unfolding_all decide

/-- C3 (amended): execution is stage-by-stage, not symbol-by-symbol — the
run's event trace splits into four consecutive segments: all symbols'
feature preparation and training, then all symbols' backtests, then the
sink deliveries, then all symbols' current-signal/prediction/alert
processing. -/
theorem c3_stagewise_order (cfg : Config) (C : Components)
    (hd : List (String × Series)) :
    ∃ e1 e2 e3 e4,
      (run_algo_prototype cfg C hd).events = e1 ++ e2 ++ e3 ++ e4 ∧
      (∀ e ∈ e1, isTrainPhase e = true) ∧
      (∀ e ∈ e2, isBacktestPhase e = true) ∧
      (∀ e ∈ e3, isSinkPhase e = true) ∧
      (∀ e ∈ e4, isSignalPhase e = true) := by
  by_cases h : hd = []
  · exact ⟨[], [], [], [], by simp [run_algo_prototype, h], by simp, by simp,
      by simp, by simp⟩
  · exact ⟨_, _, _, _, run_events_decomp cfg C hd h,
      trainLoop_events_phase C hd ⟨false, none⟩,
      backtestLoop_events_phase C hd,
      sinkEvents_phase _ _,
      signalLoop_events_phase cfg C _ hd none⟩

theorem realizedSum_append (ts us : List Trade) :
    SpecModel.realizedSum (ts ++ us) =
      SpecModel.realizedSum ts + SpecModel.realizedSum us := by
  simp [SpecModel.realizedSum]

theorem btStep_inv (sym : String) (st : SpecModel.BtState) (r : ProcRow)
    (h : r.close ≠ 0) :
    (SpecModel.btStep sym st r).capital +
        SpecModel.posCost (SpecModel.btStep sym st r).position -
        SpecModel.realizedSum (SpecModel.btStep sym st r).trades =
      st.capital + SpecModel.posCost st.position - SpecModel.realizedSum st.trades := by
  rcases st with ⟨cap, pos, trades⟩
  cases pos with
  | none =>
    by_cases hs : r.signal = some 1
    · simp only [SpecModel.btStep, hs, if_pos]
      simp [SpecModel.posCost, div_mul_cancel₀ cap h]
    · simp [SpecModel.btStep, hs]
  | some pq =>
    by_cases hs : r.signal = some (-1)
    · simp only [SpecModel.btStep, hs, if_pos]
      rw [realizedSum_append]
      simp only [SpecModel.posCost, SpecModel.realizedSum, List.map_cons,
        List.map_nil, List.sum_cons, List.sum_nil]
      ring
    · simp [SpecModel.btStep, hs]

theorem btFoldl_inv (sym : String) (rows : List ProcRow) (st : SpecModel.BtState)
    (h : ∀ r ∈ rows, r.close ≠ 0) :
    (rows.foldl (SpecModel.btStep sym) st).capital +
        SpecModel.posCost (rows.foldl (SpecModel.btStep sym) st).position -
        SpecModel.realizedSum (rows.foldl (SpecModel.btStep sym) st).trades =
      st.capital + SpecModel.posCost st.position - SpecModel.realizedSum st.trades := by
  induction rows generalizing st with
  | nil => simp
  | cons r rest ih =>
    simp only [List.foldl_cons]
    rw [ih (SpecModel.btStep sym st r) (fun x hx => h x (List.mem_cons_of_mem r hx))]
    exact btStep_inv sym st r (h r (List.mem_cons_self r rest))

theorem generate_signals_close (cfg : Config) (df : Series) :
    ∀ r ∈ SpecModel.generate_signals cfg df, ∃ b ∈ df, r.close = b.close := by
  intro r hr
  unfold SpecModel.generate_signals at hr
  obtain ⟨i, hi, rfl⟩ := List.mem_map.mp hr
  rw [List.mem_range] at hi
  have hi2 : i < (df.map Bar.close).length := by simpa using hi
  refine ⟨df.get ⟨i, hi⟩, List.get_mem df i hi, ?_⟩
  rw [List.getD_eq_getElem _ _ hi2]
  simp

theorem btFinal_inv (cfg : Config) (sym : String) (df : Series)
    (h : ∀ b ∈ df, b.close ≠ 0) :
    (SpecModel.btFinal cfg sym df).capital +
        SpecModel.posCost (SpecModel.btFinal cfg sym df).position -
        SpecModel.realizedSum (SpecModel.btFinal cfg sym df).trades =
      cfg.initial_capital := by
  have hrows : ∀ p ∈ SpecModel.generate_signals cfg df, p.close ≠ 0 := by
    intro p hp
    obtain ⟨b, hb, heq⟩ := generate_signals_close cfg df p hp
    rw [heq]; exact h b hb
  have := btFoldl_inv sym (SpecModel.generate_signals cfg df)
    ⟨cfg.initial_capital, none, []⟩ hrows
  simpa [SpecModel.btFinal, SpecModel.btFold, SpecModel.posCost,
    SpecModel.realizedSum] using this

theorem run_backtest_inv (cfg : Config) (sym : String) (df : Series)
    (h : ∀ b ∈ df, b.close ≠ 0) (r : BtResult)
    (hr : SpecModel.run_backtest cfg sym df = some r) :
    r.final_capital = r.initial_capital + r.total_pnl ∧
    ((SpecModel.btFinal cfg sym df).position = none →
      r.total_pnl = SpecModel.realizedSum r.trade_log) := by
  unfold SpecModel.run_backtest at hr
  split at hr
  · exact absurd hr (by simp)
  · rw [Option.some_inj] at hr
    subst hr
    have hinv := btFinal_inv cfg sym df h
    constructor
    · rcases hp : (SpecModel.btFinal cfg sym df).position with _ | pq <;>
        rw [hp] at hinv <;>
        simp only [SpecModel.posValue, SpecModel.posGain, SpecModel.posCost] at hinv ⊢ <;>
        linarith [hinv]
    · intro hflat
      rw [hflat]
      simp [SpecModel.posGain]

/-- C7: for every entry the orchestrator stores in its per-symbol PnL
summary (under nonzero close prices, as the backtester's
`capital / close` position sizing presupposes), the entry comes from a
backtest result for that symbol's own series with
`final_capital = initial_capital + total_pnl`, and when the simulation
ends with no open position, `total_pnl` equals the exact sum of
`realized_pnl` over the trades of that symbol's trade log. The backtest
engine itself is not under src/ and is modelled from spec 4.2. -/
theorem c7_pnl_invariant (cfg : Config) (hd : List (String × Series))
    (sym : String) (e : PnlEntry)
    (hpos : ∀ p ∈ hd, ∀ b ∈ p.2, b.close ≠ 0)
    (hmem : (sym, e) ∈ (run_algo_prototype cfg (specComponents cfg) hd).pnl) :
    e.final_capital = e.initial_capital + e.total_pnl ∧
    ∃ df r, (sym, df) ∈ hd ∧ SpecModel.run_backtest cfg sym df = some r ∧
      e = ⟨r.initial_capital, r.final_capital, r.total_pnl⟩ ∧
      ((SpecModel.btFinal cfg sym df).position = none →
        e.total_pnl = SpecModel.realizedSum r.trade_log) := by
  by_cases hhd : hd = []
  · rw [hhd] at hmem
    simp [run_algo_prototype] at hmem
  · rw [show (run_algo_prototype cfg (specComponents cfg) hd).pnl =
        (backtestLoop (specComponents cfg) hd).pnl by
      simp [run_algo_prototype, hhd]] at hmem
    obtain ⟨df, r, hdf, hne, hbt, he⟩ := backtestLoop_pnl_mem (specComponents cfg) hd sym e hmem
    have hbt2 : SpecModel.run_backtest cfg sym df = some r := hbt
    have hclose : ∀ b ∈ df, b.close ≠ 0 := hpos (sym, df) hdf
    obtain ⟨h1, h2⟩ := run_backtest_inv cfg sym df hclose r hbt2
    subst he
    exact ⟨h1, df, r, hdf, hbt2, rfl, fun hf => h2 hf⟩

/-- C7 witness: a run over one 5-bar symbol whose backtest opens a
position at the last bar — its stored entry is `⟨1000, 1000, 0⟩`. -/
theorem c7_pnl_invariant_w :
    (⟨1000, 1000, 0⟩ : PnlEntry).final_capital =
      (⟨1000, 1000, 0⟩ : PnlEntry).initial_capital + (⟨1000, 1000, 0⟩ : PnlEntry).total_pnl ∧
    ∃ df r, ("A", df) ∈ [("A", dfBuy)] ∧ SpecModel.run_backtest cfg1 "A" df = some r ∧
      (⟨1000, 1000, 0⟩ : PnlEntry) = ⟨r.initial_capital, r.final_capital, r.total_pnl⟩ ∧
      ((SpecModel.btFinal cfg1 "A" df).position = none →
        (⟨1000, 1000, 0⟩ : PnlEntry).total_pnl = SpecModel.realizedSum r.trade_log) :=
  c7_pnl_invariant cfg1 [("A", dfBuy)] "A" ⟨1000, 1000, 0⟩
    (by with_unfolding_all decide) (by with_unfolding_all decide)

/-- C1: refuted — with symbols A (2 bars: latest recomputed row is null,
so the current signal falls back to 0, and nothing in the run is
trainable, so the prediction branch is skipped and `next_day_pred` is
never assigned) and B (5 bars, processed normally in the first two
loops), the per-symbol signal loop raises `UnboundLocalError` while
evaluating A's alert condition, and B is never processed by that loop:
an exception escapes the per-symbol processing step and a failure on one
symbol prevents processing of the remaining symbols. -/
theorem c1_per_symbol_loop_raises :
    (run_algo_prototype cfg1 (specComponents cfg1) [("A", dfShort), ("B", dfBuy)]).err =
      some unboundNextDayPred ∧
    (run_algo_prototype cfg1 (specComponents cfg1)
        [("A", dfShort), ("B", dfBuy)]).events.filter (evFor "B") = [] := by
  with_unfolding_all decide

/-- C4: refuted in its "the run does not fail" part — for a single symbol
whose series (2 bars) is shorter than `max(RSI, short MA, long MA) + 1`
(= 4) bars, the recomputed latest row is null and the current signal
does fall back to HOLD (the trace records signal 0 for A), but the run
then fails: the model is untrained, so the alert condition reads the
never-assigned `next_day_pred` and raises `UnboundLocalError`. -/
theorem c4_fallback_then_fault :
    Ev.signalEv "A" 0 ∈
      (run_algo_prototype cfg1 (specComponents cfg1) [("A", dfShort)]).events ∧
    (run_algo_prototype cfg1 (specComponents cfg1) [("A", dfShort)]).err =
      some unboundNextDayPred := by
  with_unfolding_all decide

/-- C6 counterexample: a provider result that maps its only symbol to an
empty series does not abort the run — the empty-dict check at main.py
line 52 is false for it — the run proceeds with every per-symbol stage
skipping the symbol (no events at all) and finishes without error. -/
theorem c6_all_empty_no_abort_cex :
    (run_algo_prototype cfg1 (specComponents cfg1) [("A", [])]).aborted = false ∧
    (run_algo_prototype cfg1 (specComponents cfg1) [("A", [])]).events = [] ∧
    (run_algo_prototype cfg1 (specComponents cfg1) [("A", [])]).err = none := by
  with_unfolding_all decide

/-- C6 (amended): the run aborts (the early return at main.py line 52-54)
if and only if the provider mapping itself is empty — a mapping whose
every series is empty does not abort. Under unique symbol keys, every
symbol whose series is empty is skipped by the preparation/training and
backtest loops (no preparation, training or backtest event for it), while
every symbol with non-empty data is backtested. -/
theorem c6_abort_iff_empty_map (cfg : Config) (C : Components)
    (hd : List (String × Series)) (hnd : (hd.map Prod.fst).Nodup) :
    ((run_algo_prototype cfg C hd).aborted = true ↔ hd = []) ∧
    (∀ sym, (sym, ([] : Series)) ∈ hd →
      Ev.prepEv sym ∉ (run_algo_prototype cfg C hd).events ∧
      Ev.trainEv sym ∉ (run_algo_prototype cfg C hd).events ∧
      Ev.backtestEv sym ∉ (run_algo_prototype cfg C hd).events) ∧
    (∀ sym df, (sym, df) ∈ hd → df ≠ [] →
      Ev.backtestEv sym ∈ (run_algo_prototype cfg C hd).events) := by
  refine ⟨?_, ?_, ?_⟩
  · by_cases h : hd = [] <;> simp [run_algo_prototype, h]
  · intro sym hmem
    have hne : hd ≠ [] := List.ne_nil_of_mem hmem
    rw [run_events_decomp cfg C hd hne]
    have hempty : ∀ x, evSymbol x = some sym →
        x ∉ (trainLoop C hd ⟨false, none⟩).events ∧ x ∉ (backtestLoop C hd).events := by
      intro x hx
      constructor
      · intro hin
        obtain ⟨s, df2, h1, h2, h3⟩ := trainLoop_mem_nonempty C hd ⟨false, none⟩ x hin
        rw [hx] at h1
        obtain rfl : sym = s := Option.some_inj.mp h1
        exact h3 (assoc_key_unique hd hnd sym df2 [] h2 hmem)
      · intro hin
        obtain ⟨s, df2, h1, h2, h3⟩ := backtestLoop_mem_nonempty C hd x hin
        rw [hx] at h1
        obtain rfl : sym = s := Option.some_inj.mp h1
        exact h3 (assoc_key_unique hd hnd sym df2 [] h2 hmem)
    have hdecomp : ∀ (x : Ev), evSymbol x = some sym → isSinkPhase x = false →
        isSignalPhase x = false →
        x ∉ (trainLoop C hd ⟨false, none⟩).events ++ (backtestLoop C hd).events ++
          sinkEvents (backtestLoop C hd).all_trade_logs (backtestLoop C hd).pnl ++
          (signalLoop cfg C (trainLoop C hd ⟨false, none⟩).ml hd none).events := by
      intro x hx hsk hsg hin
      rcases List.mem_append.mp hin with hin1 | hin4
      · rcases List.mem_append.mp hin1 with hin2 | hin3
        · rcases List.mem_append.mp hin2 with hin | hin
          · exact (hempty x hx).1 hin
          · exact (hempty x hx).2 hin
        · exact not_mem_of_phase (sinkEvents_phase _ _) hsk hin3
      · exact not_mem_of_phase (signalLoop_events_phase cfg C _ hd none) hsg hin4
    exact ⟨hdecomp _ rfl rfl rfl, hdecomp _ rfl rfl rfl, hdecomp _ rfl rfl rfl⟩
  · intro sym df hmem hdfne
    have hne : hd ≠ [] := List.ne_nil_of_mem hmem
    rw [run_events_decomp cfg C hd hne]
    exact List.mem_append.mpr (Or.inl (List.mem_append.mpr (Or.inl
      (List.mem_append.mpr (Or.inr (backtestLoop_ev_of_mem C hd sym df hmem hdfne))))))

/-- C6 witness: the amended statement at a mapping with one empty-series
symbol A and one 5-bar symbol B. -/
theorem c6_abort_iff_empty_map_w :
    ((run_algo_prototype cfg1 (specComponents cfg1) [("A", []), ("B", dfBuy)]).aborted = true ↔
      ([("A", ([] : Series)), ("B", dfBuy)] : List (String × Series)) = []) ∧
    (Ev.prepEv "A" ∉
      (run_algo_prototype cfg1 (specComponents cfg1) [("A", []), ("B", dfBuy)]).events ∧
     Ev.trainEv "A" ∉
      (run_algo_prototype cfg1 (specComponents cfg1) [("A", []), ("B", dfBuy)]).events ∧
     Ev.backtestEv "A" ∉
      (run_algo_prototype cfg1 (specComponents cfg1) [("A", []), ("B", dfBuy)]).events) ∧
    Ev.backtestEv "B" ∈
      (run_algo_prototype cfg1 (specComponents cfg1) [("A", []), ("B", dfBuy)]).events :=
  ⟨(c6_abort_iff_empty_map cfg1 (specComponents cfg1) [("A", []), ("B", dfBuy)]
      (by with_unfolding_all decide)).1,
   (c6_abort_iff_empty_map cfg1 (specComponents cfg1) [("A", []), ("B", dfBuy)]
      (by with_unfolding_all decide)).2.1 "A" (by with_unfolding_all decide),
   (c6_abort_iff_empty_map cfg1 (specComponents cfg1) [("A", []), ("B", dfBuy)]
      (by with_unfolding_all decide)).2.2 "B" dfBuy (by with_unfolding_all decide)
      (by with_unfolding_all decide)⟩

theorem tailN_ne_nil {α : Type} (l : List α) (n : ℕ) (hn : n ≠ 0) (hl : l ≠ []) :
    tailN l n ≠ [] := by
  have h1 : l.length ≠ 0 := fun h => hl (List.length_eq_zero.mp h)
  have h2 : (tailN l n).length ≠ 0 := by
    simp only [tailN, List.length_drop]
    omega
  exact fun h => h2 (by rw [h]; rfl)

theorem signalWindow_ne_nil (cfg : Config) (df : Series) (h : df ≠ []) :
    signalWindow cfg df ≠ [] :=
  tailN_ne_nil df _ (Nat.succ_ne_zero _) h

theorem predWindow_ne_nil (cfg : Config) (df : Series) (h : df ≠ []) :
    predWindow cfg df ≠ [] :=
  tailN_ne_nil df _ (by omega) h

/-- C8: for every symbol processed in the current-signal stage whose
prediction branch runs (non-empty series and trained model — the only
situation in which a prediction value exists; when the model is untrained
the condition's read of `next_day_pred` instead raises, see C1), the
iteration completes without error and an alert is dispatched if and only
if the recomputed current signal is non-zero or the predicted value is
not the failure sentinel `-1`; when neither holds, no alert is sent. -/
theorem c8_alert_iff (cfg : Config) (C : Components) (ml : MLState)
    (sym : String) (df : Series) (ndp : Option ℤ) (hdf : df ≠ [])
    (htr : ml.trained = true) :
    (signalStep cfg C ml sym df ndp).2.2 = none ∧
    (Ev.alertEv sym ∈ (signalStep cfg C ml sym df ndp).1 ↔
      ((currentSignalOf df (C.generate_signals (signalWindow cfg df))).1 ≠ 0 ∨
        C.predict_next_day_movement ml (predWindow cfg df) ≠ -1)) := by
  have hbr : predBranch cfg C ml sym df ndp =
      (some (C.predict_next_day_movement ml (predWindow cfg df)),
       [Ev.predictEv sym (C.predict_next_day_movement ml (predWindow cfg df))]) := by
    unfold predBranch
    rw [if_pos ⟨predWindow_ne_nil cfg df hdf, htr⟩]
  unfold signalStep
  rw [if_neg hdf, if_neg (signalWindow_ne_nil cfg df hdf), hbr]
  rw [show ((some (C.predict_next_day_movement ml (predWindow cfg df)),
      [Ev.predictEv sym (C.predict_next_day_movement ml (predWindow cfg df))]) :
        Option ℤ × List Ev).1 =
      some (C.predict_next_day_movement ml (predWindow cfg df)) from rfl]
  rw [alertPart_some]
  by_cases hcond : (currentSignalOf df (C.generate_signals (signalWindow cfg df))).1 ≠ 0 ∨
      C.predict_next_day_movement ml (predWindow cfg df) ≠ -1
  · rw [if_pos hcond]
    refine ⟨rfl, ?_⟩
    exact ⟨fun _ => hcond, fun _ => by simp⟩
  · rw [if_neg hcond]
    refine ⟨rfl, ?_⟩
    constructor
    · intro h
      rcases List.mem_cons.mp h with h | h
      · exact absurd h (by simp)
      · exact absurd (List.mem_singleton.mp h) (by simp)
    · intro h
      exact absurd h hcond

/-- C8 witness: with a trained model and the 5-bar BUY series, the step
completes without error and dispatches the alert, matching the
condition. -/
theorem c8_alert_iff_w :
    (signalStep cfg1 (specComponents cfg1) ⟨true, some [1]⟩ "A" dfBuy none).2.2 = none ∧
    (Ev.alertEv "A" ∈ (signalStep cfg1 (specComponents cfg1) ⟨true, some [1]⟩ "A" dfBuy none).1 ↔
      ((currentSignalOf dfBuy
          ((specComponents cfg1).generate_signals (signalWindow cfg1 dfBuy))).1 ≠ 0 ∨
        (specComponents cfg1).predict_next_day_movement ⟨true, some [1]⟩
          (predWindow cfg1 dfBuy) ≠ -1)) :=
  c8_alert_iff cfg1 (specComponents cfg1) ⟨true, some [1]⟩ "A" dfBuy none
    (by with_unfolding_all decide) rfl

theorem trainLoop_ml (C : Components) (l : List (String × Series)) (m : MLState)
    (htrain : ∀ st rows, rows ≠ [] → (C.train_model st rows).1 = ⟨true, some rows⟩) :
    (trainLoop C l m).ml =
      (match lastTrainable C l with
       | some p => ⟨true, some (C.prepare_data_for_ml p.2)⟩
       | none => m) := by
  induction l generalizing m with
  | nil => simp [trainLoop, lastTrainable]
  | cons p rest ih =>
    obtain ⟨sym, df⟩ := p
    rw [trainLoop]
    by_cases hdf : df = []
    · rw [if_pos hdf]
      have hlt : lastTrainable C ((sym, df) :: rest) = lastTrainable C rest := by
        simp [lastTrainable, List.filter_cons, hdf]
      rw [hlt]
      exact ih m
    · rw [if_neg hdf]
      by_cases hml : C.prepare_data_for_ml df = []
      · simp only [if_pos hml]
        have hlt : lastTrainable C ((sym, df) :: rest) = lastTrainable C rest := by
          simp [lastTrainable, List.filter_cons, hml]
        show (trainLoop C rest m).ml = _
        rw [hlt]
        exact ih m
      · simp only [if_neg hml]
        have hferr : (!df.isEmpty && !(C.prepare_data_for_ml df).isEmpty) = true := by
          simp [List.isEmpty_eq_true, hdf, hml]
        show (trainLoop C rest (C.train_model m (C.prepare_data_for_ml df)).1).ml = _
        rw [htrain m (C.prepare_data_for_ml df) hml]
        rw [ih ⟨true, some (C.prepare_data_for_ml df)⟩]
        rcases hfr : rest.filter
            (fun p => !p.2.isEmpty && !(C.prepare_data_for_ml p.2).isEmpty) with _ | ⟨q, qs⟩
        · have hlt : lastTrainable C ((sym, df) :: rest) = some (sym, df) := by
            simp only [lastTrainable, List.filter_cons, hferr, if_pos, hfr]
            rfl
          have hlt2 : lastTrainable C rest = none := by
            simp [lastTrainable, hfr]
          rw [hlt, hlt2]
        · have hlt : lastTrainable C ((sym, df) :: rest) = lastTrainable C rest := by
            simp only [lastTrainable, List.filter_cons, hferr, if_pos, hfr]
            exact List.getLast?_cons_cons ..
          rw [hlt]
          rcases h2 : lastTrainable C rest with _ | r
          · exfalso
            rw [lastTrainable, hfr] at h2
            exact List.cons_ne_nil q qs (List.getLast?_eq_none_iff.mp h2)
          · rfl

theorem signalStep_predict (cfg : Config) (C : Components) (ml : MLState)
    (sym : String) (df : Series) (ndp : Option ℤ) (s : String) (p : ℤ)
    (he : Ev.predictEv s p ∈ (signalStep cfg C ml sym df ndp).1) :
    s = sym ∧ p = C.predict_next_day_movement ml (predWindow cfg df) := by
  unfold signalStep at he
  split at he
  · simp at he
  · split at he
    · simp at he
    · rcases alertPart_events _ _ _ _ _ he with h | h | h
      · exact absurd h (by simp)
      · unfold predBranch at h
        split at h
        · rw [List.mem_singleton] at h
          injection h with h1 h2
          exact ⟨h1, h2⟩
        · simp at h
      · exact absurd h (by simp)

theorem signalLoop_predict (cfg : Config) (C : Components) (ml : MLState)
    (l : List (String × Series)) (ndp : Option ℤ) : ∀ s p,
    Ev.predictEv s p ∈ (signalLoop cfg C ml l ndp).events →
    ∃ df, (s, df) ∈ l ∧ p = C.predict_next_day_movement ml (predWindow cfg df) := by
  induction l generalizing ndp with
  | nil => intro s p h; simp [signalLoop] at h
  | cons q rest ih =>
    intro s p h
    obtain ⟨sym, df⟩ := q
    rw [signalLoop] at h
    rcases hs : signalStep cfg C ml sym df ndp with ⟨evs, ndp2, err⟩
    rw [hs] at h
    cases err with
    | some e2 =>
      have h2 := signalStep_predict cfg C ml sym df ndp s p
      rw [hs] at h2
      obtain ⟨rfl, hp⟩ := h2 h
      exact ⟨df, List.mem_cons_self _ _, hp⟩
    | none =>
      rcases List.mem_append.mp h with h | h
      · have h2 := signalStep_predict cfg C ml sym df ndp s p
        rw [hs] at h2
        obtain ⟨rfl, hp⟩ := h2 h
        exact ⟨df, List.mem_cons_self _ _, hp⟩
      · obtain ⟨df2, hm, hp⟩ := ih ndp2 s p h
        exact ⟨df2, List.mem_cons_of_mem _ hm, hp⟩

/-- C2 (amended): a single shared predictor serves all symbols — provided
training a non-empty feature table makes the model trained and fitted on
exactly that table (spec 4.3), the predictor's state after the run is
fitted on the prepared series of the last symbol with non-empty data and
non-empty prepared features (untrained when there is none), and every
prediction the run emits for a symbol is produced by that single shared
post-training state applied to the symbol's own trailing window — not by
a per-symbol model. -/
theorem c2_shared_model_lifecycle (cfg : Config) (C : Components)
    (hd : List (String × Series))
    (htrain : ∀ st rows, rows ≠ [] → (C.train_model st rows).1 = ⟨true, some rows⟩) :
    ((run_algo_prototype cfg C hd).ml =
      (match lastTrainable C hd with
       | some p => ⟨true, some (C.prepare_data_for_ml p.2)⟩
       | none => ⟨false, none⟩)) ∧
    (∀ s p, Ev.predictEv s p ∈ (run_algo_prototype cfg C hd).events →
      ∃ df, (s, df) ∈ hd ∧
        p = C.predict_next_day_movement (run_algo_prototype cfg C hd).ml
              (predWindow cfg df)) := by
  by_cases hne : hd = []
  · subst hne
    constructor
    · simp [run_algo_prototype, lastTrainable]
    · intro s p h
      simp [run_algo_prototype] at h
  · have hml : (run_algo_prototype cfg C hd).ml = (trainLoop C hd ⟨false, none⟩).ml := by
      simp [run_algo_prototype, hne]
    constructor
    · rw [hml]
      exact trainLoop_ml C hd ⟨false, none⟩ htrain
    · intro s p h
      rw [run_events_decomp cfg C hd hne] at h
      rcases List.mem_append.mp h with h1 | h4
      · rcases List.mem_append.mp h1 with h2 | h3
        · rcases List.mem_append.mp h2 with h | h
          · exact absurd h (not_mem_of_phase (trainLoop_events_phase C hd ⟨false, none⟩) rfl)
          · exact absurd h (not_mem_of_phase (backtestLoop_events_phase C hd) rfl)
        · exact absurd h3 (not_mem_of_phase (sinkEvents_phase _ _) rfl)
      · obtain ⟨df, hm, hp⟩ := signalLoop_predict cfg C _ hd none s p h4
        rw [hml]
        exact ⟨df, hm, hp⟩

/-- C2 witness: the amended statement at two trainable 57-bar symbols
under the spec-modelled components. -/
theorem c2_shared_model_lifecycle_w :
    ((run_algo_prototype cfg1 (specComponents cfg1) [("A", dfFlat1), ("B", dfFlat100)]).ml =
      (match lastTrainable (specComponents cfg1) [("A", dfFlat1), ("B", dfFlat100)] with
       | some p => ⟨true, some ((specComponents cfg1).prepare_data_for_ml p.2)⟩
       | none => ⟨false, none⟩)) ∧
    (∀ s p, Ev.predictEv s p ∈
        (run_algo_prototype cfg1 (specComponents cfg1) [("A", dfFlat1), ("B", dfFlat100)]).events →
      ∃ df, (s, df) ∈ [("A", dfFlat1), ("B", dfFlat100)] ∧
        p = (specComponents cfg1).predict_next_day_movement
              (run_algo_prototype cfg1 (specComponents cfg1)
                [("A", dfFlat1), ("B", dfFlat100)]).ml
              (predWindow cfg1 df)) :=
  c2_shared_model_lifecycle cfg1 (specComponents cfg1) [("A", dfFlat1), ("B", dfFlat100)]
    (fun st rows h => by simp [specComponents, SpecModel.train_model, h])

theorem alertPart_ndp (sym : String) (sig : ℤ) (b1 : Option ℤ) (b2 : List Ev) :
    (alertPart sym sig b1 b2).2.1 = b1 := by
  cases b1 with
  | none => rw [alertPart_none]; split <;> rfl
  | some p => rw [alertPart_some]; split <;> rfl

theorem predBranch_untrained (cfg : Config) (C : Components) (ml : MLState)
    (sym : String) (df : Series) (ndp : Option ℤ) (h : ml.trained = false) :
    predBranch cfg C ml sym df ndp = (ndp, []) := by
  unfold predBranch
  rw [if_neg (fun hc => by rw [h] at hc; exact Bool.noConfusion hc.2)]

theorem signalStep_ndp_untrained (cfg : Config) (C : Components) (ml : MLState)
    (sym : String) (df : Series) (ndp : Option ℤ) (h : ml.trained = false) :
    (signalStep cfg C ml sym df ndp).2.1 = ndp := by
  unfold signalStep
  split
  · rfl
  · split
    · rfl
    · rw [alertPart_ndp, predBranch_untrained cfg C ml sym df ndp h]

theorem signalStep_untrained_congr (cfg : Config) (C : Components)
    (ml ml2 : MLState) (sym : String) (df : Series) (ndp : Option ℤ)
    (h : ml.trained = false) (h2 : ml2.trained = false) :
    signalStep cfg C ml sym df ndp = signalStep cfg C ml2 sym df ndp := by
  unfold signalStep
  rw [predBranch_untrained cfg C ml sym df ndp h,
    predBranch_untrained cfg C ml2 sym df ndp h2]

theorem signalLoop_cons_err (cfg : Config) (C : Components) (ml : MLState)
    (sym : String) (df : Series) (rest : List (String × Series)) (ndp : Option ℤ)
    (evs : List Ev) (ndp2 : Option ℤ) (e : String)
    (hs : signalStep cfg C ml sym df ndp = (evs, ndp2, some e)) :
    signalLoop cfg C ml ((sym, df) :: rest) ndp = ⟨evs, ndp2, some e⟩ := by
  rw [signalLoop, hs]

theorem signalLoop_cons_ok (cfg : Config) (C : Components) (ml : MLState)
    (sym : String) (df : Series) (rest : List (String × Series)) (ndp : Option ℤ)
    (evs : List Ev) (ndp2 : Option ℤ)
    (hs : signalStep cfg C ml sym df ndp = (evs, ndp2, none)) :
    signalLoop cfg C ml ((sym, df) :: rest) ndp =
      ⟨evs ++ (signalLoop cfg C ml rest ndp2).events,
       (signalLoop cfg C ml rest ndp2).ndp,
       (signalLoop cfg C ml rest ndp2).err⟩ := by
  rw [signalLoop, hs]

theorem signalLoop_ndp_untrained (cfg : Config) (C : Components) (ml : MLState)
    (l : List (String × Series)) (ndp : Option ℤ) (h : ml.trained = false) :
    (signalLoop cfg C ml l ndp).ndp = ndp := by
  induction l generalizing ndp with
  | nil => rfl
  | cons q rest ih =>
    obtain ⟨sym, df⟩ := q
    rw [signalLoop]
    rcases hs : signalStep cfg C ml sym df ndp with ⟨evs, ndp2, err⟩
    have hndp : ndp2 = ndp := by
      have := signalStep_ndp_untrained cfg C ml sym df ndp h
      rw [hs] at this
      exact this
    cases err with
    | some e2 => exact hndp
    | none => rw [show (signalLoop cfg C ml rest ndp2).ndp = ndp2 from ih ndp2, hndp]

theorem signalLoop_append (cfg : Config) (C : Components) (ml : MLState)
    (xs ys : List (String × Series)) (ndp : Option ℤ)
    (h : (signalLoop cfg C ml xs ndp).err = none) :
    (signalLoop cfg C ml (xs ++ ys) ndp).events =
      (signalLoop cfg C ml xs ndp).events ++
      (signalLoop cfg C ml ys (signalLoop cfg C ml xs ndp).ndp).events := by
  induction xs generalizing ndp with
  | nil => simp [signalLoop]
  | cons q rest ih =>
    obtain ⟨sym, df⟩ := q
    rcases hs : signalStep cfg C ml sym df ndp with ⟨evs, ndp2, err⟩
    cases err with
    | some e2 =>
      rw [signalLoop_cons_err cfg C ml sym df rest ndp evs ndp2 e2 hs] at h
      exact absurd h (by simp)
    | none =>
      rw [signalLoop_cons_ok cfg C ml sym df rest ndp evs ndp2 hs] at h
      have herr : (signalLoop cfg C ml rest ndp2).err = none := h
      have hcons : ((sym, df) :: rest) ++ ys = (sym, df) :: (rest ++ ys) := rfl
      rw [hcons, signalLoop_cons_ok cfg C ml sym df (rest ++ ys) ndp evs ndp2 hs,
        signalLoop_cons_ok cfg C ml sym df rest ndp evs ndp2 hs]
      show evs ++ (signalLoop cfg C ml (rest ++ ys) ndp2).events =
        (evs ++ (signalLoop cfg C ml rest ndp2).events) ++
        (signalLoop cfg C ml ys (signalLoop cfg C ml rest ndp2).ndp).events
      rw [ih ndp2 herr, List.append_assoc]

theorem signalLoop_symbols (cfg : Config) (C : Components) (ml : MLState)
    (l : List (String × Series)) (ndp : Option ℤ) :
    ∀ e ∈ (signalLoop cfg C ml l ndp).events,
      ∃ s, evSymbol e = some s ∧ s ∈ l.map Prod.fst := by
  induction l generalizing ndp with
  | nil => intro e he; simp [signalLoop] at he
  | cons q rest ih =>
    intro e he
    obtain ⟨sym, df⟩ := q
    rw [signalLoop] at he
    rcases hs : signalStep cfg C ml sym df ndp with ⟨evs, ndp2, err⟩
    rw [hs] at he
    have hstep : ∀ x ∈ evs, evSymbol x = some sym := by
      intro x hx
      have := signalStep_events cfg C ml sym df ndp x
      rw [hs] at this
      exact (this hx).2
    cases err with
    | some e2 =>
      exact ⟨sym, hstep e he, by simp⟩
    | none =>
      rcases List.mem_append.mp he with he | he
      · exact ⟨sym, hstep e he, by simp⟩
      · obtain ⟨s, h1, h2⟩ := ih ndp2 e he
        exact ⟨s, h1, List.mem_cons_of_mem _ (by simpa using h2)⟩

theorem alert_in_run_iff_sigloop (cfg : Config) (C : Components)
    (hd : List (String × Series)) (hne : hd ≠ []) (sym : String) :
    Ev.alertEv sym ∈ (run_algo_prototype cfg C hd).events ↔
      Ev.alertEv sym ∈
        (signalLoop cfg C (trainLoop C hd ⟨false, none⟩).ml hd none).events := by
  rw [run_events_decomp cfg C hd hne]
  constructor
  · intro h
    rcases List.mem_append.mp h with h1 | h4
    · exfalso
      rcases List.mem_append.mp h1 with h2 | h3
      · rcases List.mem_append.mp h2 with h | h
        · exact absurd h (not_mem_of_phase
            (trainLoop_events_phase C hd ⟨false, none⟩) rfl)
        · exact absurd h (not_mem_of_phase (backtestLoop_events_phase C hd) rfl)
      · exact absurd h3 (not_mem_of_phase (sinkEvents_phase _ _) rfl)
    · exact h4
  · intro h
    exact List.mem_append.mpr (Or.inr h)

theorem alert_step_locality (cfg : Config) (C : Components)
    (pre post : List (String × Series)) (sym : String) (df : Series)
    (ml : MLState) (h : ml.trained = false)
    (hpre : sym ∉ pre.map Prod.fst) (hpost : sym ∉ post.map Prod.fst)
    (herr : (signalLoop cfg C ml pre none).err = none) :
    (Ev.alertEv sym ∈ (signalLoop cfg C ml (pre ++ (sym, df) :: post) none).events ↔
      Ev.alertEv sym ∈ (signalStep cfg C ml sym df none).1) := by
  rw [signalLoop_append cfg C ml pre _ none herr,
    signalLoop_ndp_untrained cfg C ml pre none h]
  have hnotpre : Ev.alertEv sym ∉ (signalLoop cfg C ml pre none).events := by
    intro hin
    obtain ⟨s, h1, h2⟩ := signalLoop_symbols cfg C ml pre none _ hin
    obtain rfl : sym = s := Option.some_inj.mp h1
    exact hpre h2
  rcases hs : signalStep cfg C ml sym df none with ⟨evs, ndp2, err⟩
  show _ ↔ Ev.alertEv sym ∈ evs
  constructor
  · intro hin
    rcases List.mem_append.mp hin with hin | hin
    · exact absurd hin hnotpre
    · cases err with
      | some e2 =>
        rw [signalLoop_cons_err cfg C ml sym df post none evs ndp2 e2 hs] at hin
        exact hin
      | none =>
        rw [signalLoop_cons_ok cfg C ml sym df post none evs ndp2 hs] at hin
        have hin2 : Ev.alertEv sym ∈
            evs ++ (signalLoop cfg C ml post ndp2).events := hin
        rcases List.mem_append.mp hin2 with hin3 | hin3
        · exact hin3
        · exfalso
          obtain ⟨s, h1, h2⟩ := signalLoop_symbols cfg C ml post ndp2 _ hin3
          obtain rfl : sym = s := Option.some_inj.mp h1
          exact hpost h2
  · intro hin
    refine List.mem_append.mpr (Or.inr ?_)
    cases err with
    | some e2 =>
      rw [signalLoop_cons_err cfg C ml sym df post none evs ndp2 e2 hs]
      exact hin
    | none =>
      rw [signalLoop_cons_ok cfg C ml sym df post none evs ndp2 hs]
      exact List.mem_append.mpr (Or.inl hin)

/-- C10 (amended): the alert decision for a later symbol is insensitive to
an earlier symbol's series provided the later symbol is actually reached:
for two runs over `pre1 ++ (sym, df) :: post` and `pre2 ++ (sym, df) ::
post` in which the predictor ends training untrained (so `sym`'s
prediction branch is skipped — the claim's premise), whenever the signal
loop raises no exception over the symbols before `sym` in either run,
whether an alert is dispatched for `sym` is the same in both runs. The
unguarded claim fails because the `UnboundLocalError` crash on an earlier
symbol can suppress the later symbol's processing in one run only. -/
theorem c10_alert_locality (cfg : Config) (C : Components)
    (pre1 pre2 post : List (String × Series)) (sym : String) (df : Series)
    (h1 : sym ∉ pre1.map Prod.fst) (h2 : sym ∉ pre2.map Prod.fst)
    (h3 : sym ∉ post.map Prod.fst)
    (ht1 : (run_algo_prototype cfg C (pre1 ++ (sym, df) :: post)).ml.trained = false)
    (ht2 : (run_algo_prototype cfg C (pre2 ++ (sym, df) :: post)).ml.trained = false)
    (he1 : (signalLoop cfg C (run_algo_prototype cfg C (pre1 ++ (sym, df) :: post)).ml
      pre1 none).err = none)
    (he2 : (signalLoop cfg C (run_algo_prototype cfg C (pre2 ++ (sym, df) :: post)).ml
      pre2 none).err = none) :
    (Ev.alertEv sym ∈ (run_algo_prototype cfg C (pre1 ++ (sym, df) :: post)).events ↔
     Ev.alertEv sym ∈ (run_algo_prototype cfg C (pre2 ++ (sym, df) :: post)).events) := by
  have hne1 : pre1 ++ (sym, df) :: post ≠ [] := by simp
  have hne2 : pre2 ++ (sym, df) :: post ≠ [] := by simp
  have hmleq1 : (run_algo_prototype cfg C (pre1 ++ (sym, df) :: post)).ml =
      (trainLoop C (pre1 ++ (sym, df) :: post) ⟨false, none⟩).ml := by
    simp [run_algo_prototype, hne1]
  have hmleq2 : (run_algo_prototype cfg C (pre2 ++ (sym, df) :: post)).ml =
      (trainLoop C (pre2 ++ (sym, df) :: post) ⟨false, none⟩).ml := by
    simp [run_algo_prototype, hne2]
  rw [hmleq1] at ht1 he1
  rw [hmleq2] at ht2 he2
  rw [alert_in_run_iff_sigloop cfg C _ hne1 sym,
    alert_in_run_iff_sigloop cfg C _ hne2 sym]
  rw [alert_step_locality cfg C pre1 post sym df _ ht1 h1 h3 he1,
    alert_step_locality cfg C pre2 post sym df _ ht2 h2 h3 he2]
  rw [signalStep_untrained_congr cfg C _
    (trainLoop C (pre2 ++ (sym, df) :: post) ⟨false, none⟩).ml sym df none ht1 ht2]

/-- C10 witness: the amended statement at two concrete runs that differ
only in symbol A's series (two different BUY-signalling series, both
untrainable, both completing without exception); B's alert outcome is the
same in both. -/
theorem c10_alert_locality_w :
    (Ev.alertEv "B" ∈
      (run_algo_prototype cfg1 (specComponents cfg1)
        ([("A", dfBuy)] ++ ("B", dfBuy) :: [])).events ↔
     Ev.alertEv "B" ∈
      (run_algo_prototype cfg1 (specComponents cfg1)
        ([("A", dfBuy2)] ++ ("B", dfBuy) :: [])).events) :=
  c10_alert_locality cfg1 (specComponents cfg1) [("A", dfBuy)] [("A", dfBuy2)] []
    "B" dfBuy
    (by with_unfolding_all decide) (by with_unfolding_all decide)
    (by with_unfolding_all decide) (by with_unfolding_all decide)
    (by with_unfolding_all decide) (by with_unfolding_all decide)
    (by with_unfolding_all decide)

/-- C10 counterexample: two runs differ only in the series of the earlier
symbol A (5 BUY-signalling bars vs 2 bars); in both runs nothing is
trainable, so the later symbol B's prediction branch is skipped. In the
first run B's alert is dispatched (B's own signal is BUY), but in the
second the loop raises `UnboundLocalError` at A and B's alert is never
dispatched: the alert outcome for B differs although B's data is the
same. -/
theorem c10_crash_hyper_cex :
    Ev.alertEv "B" ∈
      (run_algo_prototype cfg1 (specComponents cfg1) [("A", dfBuy), ("B", dfBuy2)]).events ∧
    Ev.alertEv "B" ∉
      (run_algo_prototype cfg1 (specComponents cfg1) [("A", dfShort), ("B", dfBuy2)]).events := by
  with_unfolding_all decide

/-- C2 counterexample: with two trainable symbols A and B, the single
shared predictor instance is trained for A and then retrained for B (both
training events occur on the one instance), ends the training loop fitted
on B's prepared series — which differs from A's — and A's prediction is
therefore produced by a model trained on B's data: it comes out 0, while
in a run containing A alone (model fitted on A's own series) it comes out
1. -/
theorem c2_shared_model_cex :
    Ev.trainEv "A" ∈
      (run_algo_prototype cfg1 (specComponents cfg1) [("A", dfFlat1), ("B", dfFlat100)]).events ∧
    Ev.trainEv "B" ∈
      (run_algo_prototype cfg1 (specComponents cfg1) [("A", dfFlat1), ("B", dfFlat100)]).events ∧
    (run_algo_prototype cfg1 (specComponents cfg1) [("A", dfFlat1), ("B", dfFlat100)]).ml.fittedOn =
      some (SpecModel.prepare_data_for_ml cfg1 dfFlat100) ∧
    SpecModel.prepare_data_for_ml cfg1 dfFlat100 ≠ SpecModel.prepare_data_for_ml cfg1 dfFlat1 ∧
    Ev.predictEv "A" 0 ∈
      (run_algo_prototype cfg1 (specComponents cfg1) [("A", dfFlat1), ("B", dfFlat100)]).events ∧
    Ev.predictEv "A" 1 ∈
      (run_algo_prototype cfg1 (specComponents cfg1) [("A", dfFlat1)]).events := by
  with_unfolding_all decide

theorem take_set_of_le {α : Type} (l : List α) (i : ℕ) (a : α) (n : ℕ)
    (h : n ≤ i) : (l.set i a).take n = l.take n := by
  induction l generalizing i n with
  | nil => simp
  | cons x xs ih =>
    cases i with
    | zero =>
      obtain rfl : n = 0 := Nat.le_zero.mp h
      simp
    | succ i2 =>
      cases n with
      | zero => simp
      | succ n2 =>
        simp only [List.set_cons_succ, List.take_succ_cons]
        rw [ih i2 n2 (Nat.succ_le_succ_iff.mp h)]

theorem copyCall_pres {α : Type} (f : Series → Series × α) (st : Store)
    (v : Series) (n : ℕ) (h : n ≤ st.length) :
    n ≤ (callOn f (allocVal st v).1 (allocVal st v).2).1.length ∧
    (callOn f (allocVal st v).1 (allocVal st v).2).1.take n = st.take n := by
  unfold callOn allocVal
  constructor
  · simp only [List.length_set, List.length_append, List.length_singleton]
    omega
  · rw [take_set_of_le _ _ _ _ h]
    exact List.take_append_of_le_length h

theorem allocVal_pres (st : Store) (v : Series) (n : ℕ) (h : n ≤ st.length) :
    n ≤ (allocVal st v).1.length ∧ (allocVal st v).1.take n = st.take n := by
  unfold allocVal
  constructor
  · simp only [List.length_append, List.length_singleton]
    omega
  · exact List.take_append_of_le_length h

theorem signalStepS_pres (cfg : Config) (M : MutComponents) (ml : MLState)
    (r : ℕ) (st : Store) (ndp : Option ℤ) (n : ℕ) (h : n ≤ st.length) :
    n ≤ (signalStepS cfg M ml r st ndp).1.length ∧
    (signalStepS cfg M ml r st ndp).1.take n = st.take n := by
  unfold signalStepS
  have hg := copyCall_pres M.generate_signals st (signalWindow cfg (getRef st r)) n h
  have hg2 : (genStore cfg M st r).1.take n = st.take n := hg.2
  have hg1 : n ≤ (genStore cfg M st r).1.length := hg.1
  have hp := copyCall_pres (M.predict_next_day_movement ml) (genStore cfg M st r).1
    (predWindow cfg (getRef (genStore cfg M st r).1 r)) n hg1
  have hm := allocVal_pres (genStore cfg M st r).1
    (predWindow cfg (getRef (genStore cfg M st r).1 r)) n hg1
  split
  · exact ⟨h, rfl⟩
  · split
    · exact ⟨h, rfl⟩
    · split
      · exact ⟨hp.1, hp.2.trans hg2⟩
      · split
        · exact ⟨hm.1, hm.2.trans hg2⟩
        · cases ndp with
          | none => exact ⟨hm.1, hm.2.trans hg2⟩
          | some p => exact ⟨hm.1, hm.2.trans hg2⟩

theorem signalLoopS_pres (cfg : Config) (M : MutComponents) (ml : MLState)
    (l : List (String × ℕ)) (st : Store) (ndp : Option ℤ) (n : ℕ)
    (h : n ≤ st.length) :
    n ≤ (signalLoopS cfg M ml l st ndp).length ∧
    (signalLoopS cfg M ml l st ndp).take n = st.take n := by
  induction l generalizing st ndp with
  | nil => exact ⟨h, rfl⟩
  | cons q rest ih =>
    obtain ⟨sym, r⟩ := q
    rw [signalLoopS]
    have hs := signalStepS_pres cfg M ml r st ndp n h
    split
    · obtain ⟨h1, h2⟩ := ih (signalStepS cfg M ml r st ndp).1
        (signalStepS cfg M ml r st ndp).2.1 hs.1
      exact ⟨h1, h2.trans hs.2⟩
    · exact hs

theorem trainLoopS_pres (M : MutComponents) (l : List (String × ℕ))
    (st : Store) (m : MLState) (n : ℕ) (h : n ≤ st.length) :
    n ≤ (trainLoopS M l st m).1.length ∧
    (trainLoopS M l st m).1.take n = st.take n := by
  induction l generalizing st m with
  | nil => exact ⟨h, rfl⟩
  | cons q rest ih =>
    obtain ⟨sym, r⟩ := q
    rw [trainLoopS]
    have hp := copyCall_pres M.prepare_data_for_ml st (getRef st r) n h
    split
    · exact ih st m h
    · split
      · obtain ⟨h1, h2⟩ := ih (prepStore M st r).1 m hp.1
        exact ⟨h1, h2.trans hp.2⟩
      · obtain ⟨h1, h2⟩ := ih (prepStore M st r).1
          (M.train_model m (prepStore M st r).2).1 hp.1
        exact ⟨h1, h2.trans hp.2⟩

theorem backtestLoopS_pres (M : MutComponents) (l : List (String × ℕ))
    (st : Store) (n : ℕ) (h : n ≤ st.length) :
    n ≤ (backtestLoopS M l st).length ∧
    (backtestLoopS M l st).take n = st.take n := by
  induction l generalizing st with
  | nil => exact ⟨h, rfl⟩
  | cons q rest ih =>
    obtain ⟨sym, r⟩ := q
    rw [backtestLoopS]
    have hb := copyCall_pres (M.run_backtest sym) st (getRef st r) n h
    split
    · exact ih st h
    · obtain ⟨h1, h2⟩ := ih (btStore M sym st r) hb.1
      exact ⟨h1, h2.trans hb.2⟩

/-- C9: the orchestrator never mutates the fetched historical data — in
the store embedding, where every collaborator may mutate the DataFrame
object it is handed in place, a whole run (arbitrary collaborator
behaviour, arbitrary symbol-to-reference mapping) leaves every
pre-existing store entry unchanged, because each call receives a freshly
allocated copy of the symbol's series; in particular every series
reachable from `historical_data` is identical before and after the run. -/
theorem c9_no_mutation (cfg : Config) (M : MutComponents)
    (hd : List (String × ℕ)) (st : Store) :
    (runS cfg M hd st).take st.length = st := by
  unfold runS
  split
  · exact List.take_length st
  · have ht := trainLoopS_pres M hd st ⟨false, none⟩ st.length (le_refl _)
    have hb := backtestLoopS_pres M hd (trainLoopS M hd st ⟨false, none⟩).1
      st.length ht.1
    have hs := signalLoopS_pres cfg M (trainLoopS M hd st ⟨false, none⟩).2 hd
      (backtestLoopS M hd (trainLoopS M hd st ⟨false, none⟩).1) none
      st.length hb.1
    rw [hs.2, hb.2, ht.2]
    exact List.take_length st

end AlgoTrading
